import Mathlib

/-!
A shallow embedding of the call-lifecycle coordinator of the devcollab
application: the `POST /api/calls` handler (call creation), the
`GET /api/calls/[id]` handler (fetch-and-authorize for join), the
`PATCH /api/calls/[id]` handler (end / leave), and the
`DELETE /api/calls/[id]` handler (administrative cleanup).

The relational store is modelled as explicit lists of rows; every handler is a
pure function from a database state (plus the request inputs and the outcomes
of the external collaborators it consults) to a response paired with the next
database state.  Timestamps (`new Date().toISOString()`) are modelled as
naturals, one clock value per request.  The video-room provider is modelled by
the request environment: the room it would allocate, the token it would mint,
and whether each such upstream step succeeds; a `deleteDailyRoom` attempt is
recorded in the state (the handlers wrap it in try/log/continue, so only the
attempt itself is observable).  Store writes are modelled as reliable except
the two inserts of the create handler, whose failure branches the source
treats specially (the call-row insert aborts with an error; the bulk
participant insert is logged and skipped).  Profile resolution, display-data
normalization and the `calendar_events.call_id` back-link update are elided:
callers are identified by their already-resolved profile id, and no handler
reads that back-link.
-/

namespace DevCollab

/-- Opaque database identifiers (UUIDs in the source). -/
abbrev ProfileId := String

abbrev CallId := String

abbrev ChatId := String

abbrev EventId := String

/-- One timestamp per request; all `new Date()` calls inside a single request
observe the same value. -/
abbrev Time := Nat

/-- `calls.status` is the enum `'active' | 'ended'`. -/
inductive CallStatus where
  | active
  | ended
  deriving DecidableEq, Repr

/-- A row of the `calls` table, with the columns the handlers read or write.
`started_at` and `created_at` are store-side defaults never consulted by the
coordinator logic and are omitted. -/
structure Call where
  id : CallId
  daily_room_name : String
  daily_room_url : String
  title : Option String
  started_by : ProfileId
  calendar_event_id : Option EventId
  chat_id : Option ChatId
  status : CallStatus
  ended_at : Option Time
  deriving DecidableEq, Repr

/-- A row of the `call_participants` table.  The surrogate `id` column is
never used by the coordinator logic (it is selected only to count rows) and is
omitted; rows are keyed by the `(call_id, user_id)` unique constraint. -/
structure CallParticipant where
  call_id : CallId
  user_id : ProfileId
  joined_at : Time
  left_at : Option Time
  deriving DecidableEq, Repr

/-- The shared mutable state: the relevant store tables plus the observable
interactions with the video-room provider.  `allocated_rooms` records every
room `createDailyRoom` handed out; `room_deletion_attempts` records every
`deleteDailyRoom` attempt. -/
structure DB where
  calls : List Call
  call_participants : List CallParticipant
  chat_participants : List (ChatId × ProfileId)
  event_participants : List (EventId × ProfileId)
  allocated_rooms : List String
  room_deletion_attempts : List String
  deriving DecidableEq, Repr

def initDB : DB := ⟨[], [], [], [], [], []⟩

/-- `.from('calls').select(...).eq('id', id).single()`. -/
def findCall (db : DB) (id : CallId) : Option Call :=
  db.calls.find? (fun c => decide (c.id = id))

/-- A value of the incoming JSON `participantIds` array: a string, or any
other JSON value (discarded by the `typeof id === 'string'` filter). -/
inductive JVal where
  | str (s : String)
  | other
  deriving DecidableEq, Repr

/-- The `typeof id === 'string'` filter over the supplied array. -/
def validStrings (l : List JVal) : List String :=
  l.filterMap (fun v => match v with | .str s => some s | .other => none)

/-- One step of `new Set(...)` construction: JavaScript sets keep the first
occurrence, in insertion order. -/
def jsSetFold (acc : List String) (x : String) : List String :=
  if x ∈ acc then acc else acc ++ [x]

/-- The element list of `new Set(l)`: `l` deduplicated keeping first
occurrences. -/
def jsSet (l : List String) : List String := l.foldl jsSetFold []

/-- JavaScript `x || null` on an optional string (the empty string is falsy). -/
def orNull (x : Option String) : Option String :=
  match x with
  | some s => if s = "" then none else some s
  | none => none

/-- `title?.trim() || null`. -/
def normTitle (t : Option String) : Option String :=
  match t with
  | some s => if s.trim = "" then none else some s.trim
  | none => none

/-- The request body of `POST /api/calls` (`CreateCallInput`).
`participantIds = none` covers both an absent field and a non-array value,
which the handler replaces by the empty list. -/
structure CreateInput where
  title : Option String
  participantIds : Option (List JVal)
  calendarEventId : Option String
  chatId : Option String
  deriving DecidableEq, Repr

/-- External-world outcomes for one `POST /api/calls` request: the room the
video provider would allocate, the id the store would assign to the new call
row, whether each fallible step succeeds, and the meeting token minted for the
creator. -/
structure CreateEnv where
  roomOk : Bool
  roomName : String
  roomUrl : String
  newCallId : CallId
  insertCallOk : Bool
  insertParticipantsOk : Bool
  tokenOk : Bool
  token : String
  deriving DecidableEq, Repr

/-- The JSON response of `POST /api/calls`. -/
inductive CreateResp where
  | err (status : Nat) (msg : String)
  | ok (id : CallId) (roomUrl : String) (token : String)
  deriving DecidableEq, Repr

/-- `POST /api/calls`: create a call.  Mirrors the handler after
authentication and profile resolution: normalize the participant list
(creator unioned in, deduplicated), allocate the room (fatal on failure),
insert the call row (fatal on failure; the insert also fails if the assigned
primary key collides with an existing call row), bulk-insert the participant
rows (failure logged and skipped), then mint the creator's token (fatal on
failure, but the call row already exists). -/
def createCall (db : DB) (caller : ProfileId) (inp : CreateInput)
    (env : CreateEnv) (now : Time) : CreateResp × DB :=
  let valid := validStrings (inp.participantIds.getD [])
  let allIds := jsSet (caller :: valid)
  if env.roomOk = false then
    (.err 500 "Failed to create video room", db)
  else
    let db1 := { db with allocated_rooms := db.allocated_rooms ++ [env.roomName] }
    if env.insertCallOk = false ∨ db.calls.any (fun c => decide (c.id = env.newCallId)) then
      (.err 500 "Failed to create call", db1)
    else
      let newCall : Call :=
        { id := env.newCallId
          daily_room_name := env.roomName
          daily_room_url := env.roomUrl
          title := normTitle inp.title
          started_by := caller
          calendar_event_id := orNull inp.calendarEventId
          chat_id := orNull inp.chatId
          status := .active
          ended_at := none }
      let db2 := { db1 with calls := db1.calls ++ [newCall] }
      let rows := allIds.map (fun uid =>
        ({ call_id := env.newCallId, user_id := uid, joined_at := now,
           left_at := none } : CallParticipant))
      let db3 :=
        if 0 < rows.length ∧ env.insertParticipantsOk = true then
          { db2 with call_participants := db2.call_participants ++ rows }
        else db2
      if env.tokenOk = false then
        (.err 500 "Failed to generate meeting token", db3)
      else
        (.ok env.newCallId env.roomUrl env.token, db3)

/-- External-world outcomes for one `GET /api/calls/[id]` request. -/
structure GetEnv where
  tokenOk : Bool
  token : String
  deriving DecidableEq, Repr

/-- The JSON response of `GET /api/calls/[id]`.  The success payload carries
the call id, the minted token and the room URL; the display normalization of
the call record is elided. -/
inductive GetResp where
  | err (status : Nat) (msg : String)
  | ok (callId : CallId) (token : String) (roomUrl : String)
  deriving DecidableEq, Repr

/-- `call.call_participants.some(p => p.user_id === profileId)`, and equally
the `(call_id, user_id)` unique-constraint lookup backing the upsert. -/
def isParticipantOf (db : DB) (id : CallId) (u : ProfileId) : Bool :=
  db.call_participants.any (fun p => decide (p.call_id = id ∧ p.user_id = u))

/-- The linked-chat / linked-calendar-event access checks of the GET handler:
the event lookup runs only when the chat lookup did not grant access. -/
def hasLinkedAccess (db : DB) (call : Call) (u : ProfileId) : Bool :=
  let chatOk : Bool :=
    match call.chat_id with
    | some cid => decide ((cid, u) ∈ db.chat_participants)
    | none => false
  if chatOk then true
  else
    match call.calendar_event_id with
    | some eid => decide ((eid, u) ∈ db.event_participants)
    | none => false

/-- `.upsert({call_id, user_id, joined_at}, onConflict 'call_id,user_id')`:
update the matching rows' `joined_at` when the key already exists, insert a
fresh row (with `left_at` at its null default) otherwise. -/
def upsertParticipant (db : DB) (id : CallId) (u : ProfileId) (now : Time) : DB :=
  if isParticipantOf db id u then
    { db with call_participants := db.call_participants.map (fun p =>
        if p.call_id = id ∧ p.user_id = u then { p with joined_at := now } else p) }
  else
    { db with call_participants := db.call_participants ++
        [{ call_id := id, user_id := u, joined_at := now, left_at := none }] }

/-- `GET /api/calls/[id]`: fetch a call for joining.  Mirrors the handler
after authentication and profile resolution: fetch the call (404 if absent),
grant access to the starter, an enrolled participant, a member of the linked
chat, or a participant of the linked calendar event — any non-match is
reported as the same 404 — then 410 for an ended call, then mint the meeting
token, then self-heal enrollment with an upsert when the caller had no
participant row. -/
def getCallForJoin (db : DB) (caller : ProfileId) (id : CallId) (now : Time)
    (env : GetEnv) : GetResp × DB :=
  match findCall db id with
  | none => (.err 404 "Call not found", db)
  | some call =>
    let isStarter := decide (call.started_by = caller)
    let isParticipant := isParticipantOf db id caller
    let linked := hasLinkedAccess db call caller
    if !isStarter && !isParticipant && !linked then
      (.err 404 "Call not found", db)
    else if call.status = .ended then
      (.err 410 "This call has ended", db)
    else if env.tokenOk = false then
      (.err 500 "Failed to generate meeting token", db)
    else
      let db' := if isParticipant then db else upsertParticipant db id caller now
      (.ok call.id env.token call.daily_room_url, db')

/-- The JSON response of `PATCH /api/calls/[id]`.  `autoEnded` is `true`
exactly when the body carried `autoEnded: true`. -/
inductive PatchResp where
  | err (status : Nat) (msg : String)
  | ok (status_str : String) (autoEnded : Bool)
  deriving DecidableEq, Repr

/-- Record a (try/log/continue) `deleteDailyRoom` attempt. -/
def attemptRoomDelete (db : DB) (name : String) : DB :=
  { db with room_deletion_attempts := db.room_deletion_attempts ++ [name] }

/-- The row update of the `end` branch:
`.update(left_at now).eq('call_id', id).is('left_at', null)`. -/
def endLeft (id : CallId) (now : Time) (p : CallParticipant) : CallParticipant :=
  if p.call_id = id ∧ p.left_at = none then { p with left_at := some now } else p

/-- The row update of the `leave` branch:
`.update(left_at now).eq('call_id', id).eq('user_id', u)` — note the absence
of an `.is('left_at', null)` filter. -/
def setLeft (id : CallId) (u : ProfileId) (now : Time) (p : CallParticipant) :
    CallParticipant :=
  if p.call_id = id ∧ p.user_id = u then { p with left_at := some now } else p

/-- The call-row update shared by explicit end and auto-end:
`.update(status 'ended', ended_at now).eq('id', id)`. -/
def endCalls (id : CallId) (now : Time) (c : Call) : Call :=
  if c.id = id then { c with status := .ended, ended_at := some now } else c

/-- `PATCH /api/calls/[id]`: end or leave a call.  Mirrors the handler after
authentication and profile resolution: validate the action, fetch the call
(404 if absent), 410 if already ended; `end` is starter-only (403 otherwise)
and marks the call ended, marks every still-active participant left, and
attempts room deletion; `leave` stamps the caller's own participant rows,
re-checks for remaining active rows, and auto-ends (same side effects, with
`autoEnded: true` in the response) when none remain. -/
def updateParticipation (db : DB) (caller : ProfileId) (id : CallId)
    (action : String) (now : Time) : PatchResp × DB :=
  if ¬(action = "end" ∨ action = "leave") then
    (.err 400 "Invalid action. Must be \"end\" or \"leave\"", db)
  else
    match findCall db id with
    | none => (.err 404 "Call not found", db)
    | some call =>
      if call.status = .ended then
        (.err 410 "This call has already ended", db)
      else if action = "end" then
        if call.started_by ≠ caller then
          (.err 403 "Only the call starter can end the call", db)
        else
          let db1 := { db with calls := db.calls.map (endCalls id now) }
          let db2 := { db1 with call_participants :=
            db1.call_participants.map (endLeft id now) }
          let db3 := attemptRoomDelete db2 call.daily_room_name
          (.ok "ended" false, db3)
      else
        let db1 := { db with call_participants :=
          db.call_participants.map (setLeft id caller now) }
        let active := db1.call_participants.filter
          (fun p => decide (p.call_id = id ∧ p.left_at = none))
        if active.isEmpty then
          let db2 := { db1 with calls := db1.calls.map (endCalls id now) }
          let db3 := attemptRoomDelete db2 call.daily_room_name
          (.ok "ended" true, db3)
        else
          (.ok "left" false, db1)

/-- The JSON response of `DELETE /api/calls/[id]`. -/
inductive DeleteResp where
  | err (status : Nat) (msg : String)
  | ok
  deriving DecidableEq, Repr

/-- `DELETE /api/calls/[id]`: starter-only cleanup.  Attempts room deletion,
then deletes the call row; the store's referential-integrity rules cascade the
deletion to the call's participant rows. -/
def deleteCall (db : DB) (caller : ProfileId) (id : CallId) : DeleteResp × DB :=
  match findCall db id with
  | none => (.err 404 "Call not found", db)
  | some call =>
    if call.started_by ≠ caller then
      (.err 403 "Only the call starter can delete this call", db)
    else
      let db1 := attemptRoomDelete db call.daily_room_name
      let db2 := { db1 with
        calls := db1.calls.filter (fun c => decide (c.id ≠ id)),
        call_participants :=
          db1.call_participants.filter (fun p => decide (p.call_id ≠ id)) }
      (.ok, db2)

/-- One transition of the coordinator's state: one request to any of the four
handlers, or an external update of the chat / calendar-event membership tables
(those are written by other parts of the application and only read here). -/
inductive Step where
  | create (caller : ProfileId) (inp : CreateInput) (env : CreateEnv) (now : Time)
  | get (caller : ProfileId) (id : CallId) (now : Time) (env : GetEnv)
  | patch (caller : ProfileId) (id : CallId) (action : String) (now : Time)
  | del (caller : ProfileId) (id : CallId)
  | chats (l : List (ChatId × ProfileId))
  | events (l : List (EventId × ProfileId))

def stepDB (db : DB) : Step → DB
  | .create caller inp env now => (createCall db caller inp env now).2
  | .get caller id now env => (getCallForJoin db caller id now env).2
  | .patch caller id action now => (updateParticipation db caller id action now).2
  | .del caller id => (deleteCall db caller id).2
  | .chats l => { db with chat_participants := l }
  | .events l => { db with event_participants := l }

/-- States reachable from the empty store by any sequence of requests. -/
inductive Reachable : DB → Prop where
  | init : Reachable initDB
  | step (s : Step) {db : DB} : Reachable db → Reachable (stepDB db s)

end DevCollab

namespace DevCollab

/-- Invariant: an active call that has any participant row has a currently
active (left_at null) participant row. -/
def autoEndInv (db : DB) : Prop :=
  ∀ c ∈ db.calls, c.status = CallStatus.active →
    (∃ p ∈ db.call_participants, p.call_id = c.id) →
    ∃ p ∈ db.call_participants, p.call_id = c.id ∧ p.left_at = none

/-- Invariant: every participant row references an existing call row. -/
def refInv (db : DB) : Prop :=
  ∀ p ∈ db.call_participants, ∃ c ∈ db.calls, c.id = p.call_id

/-- Invariant: every call row's room was allocated by the provider first. -/
def roomInv (db : DB) : Prop :=
  ∀ c ∈ db.calls, c.daily_room_name ∈ db.allocated_rooms

def invs (db : DB) : Prop := autoEndInv db ∧ refInv db ∧ roomInv db

/-- The auto-end invariant exactly as the specification states it: a call all
of whose participant rows are left (vacuously including a call with zero
rows) must be ended. -/
def claimAutoEnd (db : DB) : Prop :=
  ∀ c ∈ db.calls,
    (∀ p ∈ db.call_participants, p.call_id = c.id → p.left_at ≠ none) →
    c.status = CallStatus.ended

/-- A two-participant active call used to exhibit the behavior of repeated
`leave` invocations. -/
def dbLeaveTwice : DB :=
  { calls := [{ id := "c1", daily_room_name := "r1", daily_room_url := "u1",
                title := none, started_by := "a", calendar_event_id := none,
                chat_id := none, status := CallStatus.active, ended_at := none }]
    call_participants := [⟨"c1", "a", 0, none⟩, ⟨"c1", "b", 0, none⟩]
    chat_participants := []
    event_participants := []
    allocated_rooms := ["r1"]
    room_deletion_attempts := [] }

/-- Sample: a two-participant active call (`a` started it, `b` joined). -/
def callTwo : Call :=
  { id := "c1", daily_room_name := "r1", daily_room_url := "u1", title := none,
    started_by := "a", calendar_event_id := none, chat_id := none,
    status := CallStatus.active, ended_at := none }

def dbTwo : DB :=
  { calls := [callTwo]
    call_participants := [⟨"c1", "a", 0, none⟩, ⟨"c1", "b", 0, none⟩]
    chat_participants := []
    event_participants := []
    allocated_rooms := ["r1"]
    room_deletion_attempts := [] }

/-- Sample: an already-ended call. -/
def callEnded : Call :=
  { id := "c1", daily_room_name := "r1", daily_room_url := "u1", title := none,
    started_by := "a", calendar_event_id := none, chat_id := none,
    status := CallStatus.ended, ended_at := some 2 }

def dbEnded : DB :=
  { calls := [callEnded]
    call_participants := [⟨"c1", "a", 0, some 2⟩]
    chat_participants := []
    event_participants := []
    allocated_rooms := ["r1"]
    room_deletion_attempts := ["r1"] }

/-- Sample: an active call linked to chat `ch` whose member `w` has no
participant row. -/
def callChat : Call :=
  { id := "c1", daily_room_name := "r1", daily_room_url := "u1", title := none,
    started_by := "a", calendar_event_id := none, chat_id := some "ch",
    status := CallStatus.active, ended_at := none }

def dbChat : DB :=
  { calls := [callChat]
    call_participants := [⟨"c1", "a", 0, none⟩]
    chat_participants := [("ch", "w")]
    event_participants := []
    allocated_rooms := ["r1"]
    room_deletion_attempts := [] }

end DevCollab

namespace DevCollab

theorem endCalls_id (id : CallId) (now : Time) (c : Call) : (endCalls id now c).id = c.id := by
  unfold endCalls; split <;> rfl

theorem endCalls_room (id : CallId) (now : Time) (c : Call) :
    (endCalls id now c).daily_room_name = c.daily_room_name := by
  unfold endCalls; split <;> rfl

theorem endLeft_call_id (id : CallId) (now : Time) (p : CallParticipant) :
    (endLeft id now p).call_id = p.call_id := by
  unfold endLeft; split <;> rfl

theorem setLeft_call_id (id : CallId) (u : ProfileId) (now : Time) (p : CallParticipant) :
    (setLeft id u now p).call_id = p.call_id := by
  unfold setLeft; split <;> rfl

theorem setLeft_user_id (id : CallId) (u : ProfileId) (now : Time) (p : CallParticipant) :
    (setLeft id u now p).user_id = p.user_id := by
  unfold setLeft; split <;> rfl

theorem findCall_mem {db : DB} {id : CallId} {c : Call} (h : findCall db id = some c) :
    c ∈ db.calls ∧ c.id = id := by
  refine ⟨List.mem_of_find?_eq_some h, ?_⟩
  have := List.find?_some h
  simpa using this

theorem find?_map_of_id (l : List Call) (f : Call → Call) (hf : ∀ c, (f c).id = c.id)
    (id : CallId) :
    (l.map f).find? (fun c => decide (c.id = id)) =
      (l.find? (fun c => decide (c.id = id))).map f := by
  induction l with
  | nil => rfl
  | cons a l ih =>
    simp only [List.map_cons, List.find?_cons, hf]
    split <;> simp_all

end DevCollab

namespace DevCollab

theorem isParticipantOf_eq_false {db : DB} {id : CallId} {u : ProfileId} :
    isParticipantOf db id u = false ↔
      ∀ p ∈ db.call_participants, p.call_id = id → p.user_id ≠ u := by
  unfold isParticipantOf
  simp [List.any_eq_true]

theorem hasLinkedAccess_eq_true {db : DB} {c : Call} {u : ProfileId} :
    hasLinkedAccess db c u = true ↔
      ((∃ ch, c.chat_id = some ch ∧ (ch, u) ∈ db.chat_participants) ∨
       (∃ ev, c.calendar_event_id = some ev ∧ (ev, u) ∈ db.event_participants)) := by
  unfold hasLinkedAccess
  rcases hch : c.chat_id with _ | ch <;> rcases hev : c.calendar_event_id with _ | ev <;>
    simp [hch, hev]

end DevCollab

namespace DevCollab


theorem invs_congr {db db' : DB} (h : invs db)
    (h1 : db'.calls = db.calls) (h2 : db'.call_participants = db.call_participants)
    (h3 : ∀ r ∈ db.allocated_rooms, r ∈ db'.allocated_rooms) : invs db' := by
  obtain ⟨hA, hR, hRm⟩ := h
  refine ⟨?_, ?_, ?_⟩
  · intro c hc hst hex
    rw [h1] at hc; rw [h2] at hex ⊢
    exact hA c hc hst hex
  · intro p hp
    rw [h2] at hp; rw [h1]
    exact hR p hp
  · intro c hc
    rw [h1] at hc
    exact h3 _ (hRm c hc)

theorem invs_addActiveRow (db : DB) (p0 : CallParticipant) (h : invs db)
    (hex : ∃ c ∈ db.calls, c.id = p0.call_id) (hactive : p0.left_at = none) :
    invs { db with call_participants := db.call_participants ++ [p0] } := by
  obtain ⟨hA, hR, hRm⟩ := h
  refine ⟨?_, ?_, hRm⟩
  · rintro c hc hst ⟨p, hp, hpid⟩
    rcases List.mem_append.1 hp with hp | hp
    · obtain ⟨q, hq, hq1, hq2⟩ := hA c hc hst ⟨p, hp, hpid⟩
      exact ⟨q, List.mem_append_left _ hq, hq1, hq2⟩
    · have hp0 : p = p0 := by simpa using hp
      subst hp0
      exact ⟨p, List.mem_append_right _ (by simp), hpid, hactive⟩
  · intro p hp
    rcases List.mem_append.1 hp with hp | hp
    · exact hR p hp
    · have hp0 : p = p0 := by simpa using hp
      subst hp0
      exact hex

theorem invs_endMap (db : DB) (id : CallId) (now : Time)
    (f : CallParticipant → CallParticipant)
    (hf : ∀ p, p.call_id ≠ id → f p = p) (hfid : ∀ p, (f p).call_id = p.call_id)
    (h : invs db) :
    invs { db with calls := db.calls.map (endCalls id now),
                   call_participants := db.call_participants.map f } := by
  obtain ⟨hA, hR, hRm⟩ := h
  refine ⟨?_, ?_, ?_⟩
  · rintro c' hc' hst ⟨p', hp', hpid⟩
    obtain ⟨c, hc, rfl⟩ := List.mem_map.1 hc'
    have hne : c.id ≠ id := by
      intro heq
      unfold endCalls at hst
      rw [if_pos heq] at hst
      simp at hst
    have hceq : endCalls id now c = c := by unfold endCalls; rw [if_neg hne]
    rw [hceq] at hst hpid ⊢
    obtain ⟨p, hp, rfl⟩ := List.mem_map.1 hp'
    have hpcall : p.call_id = c.id := by rw [← hfid p]; exact hpid
    obtain ⟨q, hq, hq1, hq2⟩ := hA c hc hst ⟨p, hp, hpcall⟩
    have hqne : q.call_id ≠ id := by rw [hq1]; exact hne
    refine ⟨f q, List.mem_map_of_mem f hq, ?_, ?_⟩
    · rw [hf q hqne]; exact hq1
    · rw [hf q hqne]; exact hq2
  · rintro p' hp'
    obtain ⟨p, hp, rfl⟩ := List.mem_map.1 hp'
    obtain ⟨c, hc, hcid⟩ := hR p hp
    exact ⟨endCalls id now c, List.mem_map_of_mem _ hc, by rw [endCalls_id, hfid]; exact hcid⟩
  · rintro c' hc'
    obtain ⟨c, hc, rfl⟩ := List.mem_map.1 hc'
    rw [endCalls_room]
    exact hRm c hc

theorem invs_leaveKeep (db : DB) (id : CallId) (u : ProfileId) (now : Time)
    (hne : ((db.call_participants.map (setLeft id u now)).filter
        (fun p => decide (p.call_id = id ∧ p.left_at = none))).isEmpty = false)
    (h : invs db) :
    invs { db with call_participants := db.call_participants.map (setLeft id u now) } := by
  obtain ⟨hA, hR, hRm⟩ := h
  refine ⟨?_, ?_, ?_⟩
  · rintro c hc hst ⟨p', hp', hpid⟩
    by_cases hcid : c.id = id
    · have hnil : (db.call_participants.map (setLeft id u now)).filter
          (fun p => decide (p.call_id = id ∧ p.left_at = none)) ≠ [] := by
        intro hl
        rw [hl] at hne
        simp at hne
      obtain ⟨q', hq'⟩ := List.exists_mem_of_ne_nil _ hnil
      have := List.mem_filter.1 hq'
      refine ⟨q', this.1, ?_, ?_⟩
      · rw [hcid]; exact (of_decide_eq_true this.2).1
      · exact (of_decide_eq_true this.2).2
    · obtain ⟨p, hp, rfl⟩ := List.mem_map.1 hp'
      have hpcall : p.call_id = c.id := by rw [← setLeft_call_id id u now p]; exact hpid
      obtain ⟨q, hq, hq1, hq2⟩ := hA c hc hst ⟨p, hp, hpcall⟩
      have hqeq : setLeft id u now q = q := by
        unfold setLeft
        rw [if_neg]
        rintro ⟨h1, -⟩
        exact hcid (hq1 ▸ h1)
      refine ⟨setLeft id u now q, List.mem_map_of_mem _ hq, ?_, ?_⟩
      · rw [hqeq]; exact hq1
      · rw [hqeq]; exact hq2
  · rintro p' hp'
    obtain ⟨p, hp, rfl⟩ := List.mem_map.1 hp'
    obtain ⟨c, hc, hcid⟩ := hR p hp
    exact ⟨c, hc, by rw [setLeft_call_id]; exact hcid⟩
  · exact hRm

end DevCollab

namespace DevCollab

theorem invs_createAppend (db : DB) (nc : Call) (rows : List CallParticipant) (rm : String)
    (h : invs db)
    (hfresh : ∀ c ∈ db.calls, c.id ≠ nc.id)
    (hrows : ∀ p ∈ rows, p.call_id = nc.id ∧ p.left_at = none)
    (hroom : nc.daily_room_name = rm) :
    invs { db with calls := db.calls ++ [nc],
                   call_participants := db.call_participants ++ rows,
                   allocated_rooms := db.allocated_rooms ++ [rm] } := by
  obtain ⟨hA, hR, hRm⟩ := h
  refine ⟨?_, ?_, ?_⟩
  · rintro c hc hst ⟨p, hp, hpid⟩
    rcases List.mem_append.1 hc with hc | hc
    · rcases List.mem_append.1 hp with hp | hp
      · obtain ⟨q, hq, h1, h2⟩ := hA c hc hst ⟨p, hp, hpid⟩
        exact ⟨q, List.mem_append_left _ hq, h1, h2⟩
      · exact absurd (by rw [← hpid, (hrows p hp).1]) (hfresh c hc)
    · have hc' : c = nc := by simpa using hc
      subst hc'
      rcases List.mem_append.1 hp with hp | hp
      · obtain ⟨c0, hc0, hc0id⟩ := hR p hp
        exact absurd (by rw [hc0id, hpid]) (hfresh c0 hc0)
      · exact ⟨p, List.mem_append_right _ hp, hpid, (hrows p hp).2⟩
  · rintro p hp
    rcases List.mem_append.1 hp with hp | hp
    · obtain ⟨c0, hc0, hc0id⟩ := hR p hp
      exact ⟨c0, List.mem_append_left _ hc0, hc0id⟩
    · exact ⟨nc, List.mem_append_right _ (by simp), ((hrows p hp).1).symm⟩
  · rintro c hc
    rcases List.mem_append.1 hc with hc | hc
    · exact List.mem_append_left _ (hRm c hc)
    · have hc' : c = nc := by simpa using hc
      subst hc'
      rw [hroom]
      exact List.mem_append_right _ (by simp)

theorem invs_create (db : DB) (caller : ProfileId) (inp : CreateInput) (env : CreateEnv)
    (now : Time) (h : invs db) : invs (createCall db caller inp env now).2 := by
  unfold createCall
  dsimp only
  split
  · exact h
  · split
    · exact invs_congr h rfl rfl (fun r hr => List.mem_append_left _ hr)
    next hok =>
      have hfresh : ∀ c ∈ db.calls, c.id ≠ env.newCallId := by
        intro c hc heq
        exact hok (Or.inr (by simp only [List.any_eq_true, decide_eq_true_eq]; exact ⟨c, hc, heq⟩))
      rw [apply_ite Prod.snd]
      dsimp only
      rw [ite_self]
      split
      · refine invs_createAppend db _ _ env.roomName h hfresh ?_ rfl
        rintro p hp
        obtain ⟨uid, huid, rfl⟩ := List.mem_map.1 hp
        exact ⟨rfl, rfl⟩
      · refine invs_congr (invs_createAppend db _ [] env.roomName h hfresh (by simp) rfl)
          rfl ?_ (fun r hr => hr)
        exact (List.append_nil _).symm

end DevCollab

namespace DevCollab

theorem invs_get (db : DB) (caller : ProfileId) (id : CallId) (now : Time) (env : GetEnv)
    (h : invs db) : invs (getCallForJoin db caller id now env).2 := by
  unfold getCallForJoin
  dsimp only
  split
  · exact h
  next call hfind =>
    split
    · exact h
    · split
      · exact h
      · split
        · exact h
        · split
          · exact h
          next hnp =>
            unfold upsertParticipant
            rw [if_neg hnp]
            refine invs_addActiveRow db _ h ?_ rfl
            exact ⟨call, (findCall_mem hfind).1, (findCall_mem hfind).2⟩

theorem invs_patch (db : DB) (caller : ProfileId) (id : CallId) (action : String)
    (now : Time) (h : invs db) : invs (updateParticipation db caller id action now).2 := by
  unfold updateParticipation
  dsimp only
  split
  · exact h
  · split
    · exact h
    next call hfind =>
      split
      · exact h
      · split
        · split
          · exact h
          · refine invs_congr (invs_endMap db id now (endLeft id now) ?_ (endLeft_call_id id now) h)
              rfl rfl (fun r hr => hr)
            intro p hne
            unfold endLeft
            rw [if_neg]
            rintro ⟨h1, -⟩
            exact hne h1
        · split
          next hempty =>
            refine invs_congr (invs_endMap db id now (setLeft id caller now) ?_
              (setLeft_call_id id caller now) h) rfl rfl (fun r hr => hr)
            intro p hne
            unfold setLeft
            rw [if_neg]
            rintro ⟨h1, -⟩
            exact hne h1
          next hne =>
            exact invs_leaveKeep db id caller now (eq_false_of_ne_true hne) h

theorem invs_del (db : DB) (caller : ProfileId) (id : CallId) (h : invs db) :
    invs (deleteCall db caller id).2 := by
  unfold deleteCall
  dsimp only
  split
  · exact h
  next call hfind =>
    split
    · exact h
    · obtain ⟨hA, hR, hRm⟩ := h
      refine ⟨?_, ?_, ?_⟩
      · rintro c hc hst ⟨p, hp, hpid⟩
        have hc' := List.mem_filter.1 hc
        have hp' := List.mem_filter.1 hp
        obtain ⟨q, hq, h1, h2⟩ := hA c hc'.1 hst ⟨p, hp'.1, hpid⟩
        refine ⟨q, List.mem_filter.2 ⟨hq, ?_⟩, h1, h2⟩
        rw [decide_eq_true_eq, h1]
        exact of_decide_eq_true hc'.2
      · rintro p hp
        have hp' := List.mem_filter.1 hp
        obtain ⟨c0, hc0, hc0id⟩ := hR p hp'.1
        refine ⟨c0, List.mem_filter.2 ⟨hc0, ?_⟩, hc0id⟩
        rw [decide_eq_true_eq, hc0id]
        exact of_decide_eq_true hp'.2
      · rintro c hc
        exact hRm c (List.mem_filter.1 hc).1

theorem invs_step (db : DB) (s : Step) (h : invs db) : invs (stepDB db s) := by
  cases s with
  | create caller inp env now => exact invs_create db caller inp env now h
  | get caller id now env => exact invs_get db caller id now env h
  | patch caller id action now => exact invs_patch db caller id action now h
  | del caller id => exact invs_del db caller id h
  | chats l => exact invs_congr h rfl rfl (fun r hr => hr)
  | events l => exact invs_congr h rfl rfl (fun r hr => hr)

theorem reachable_invs {db : DB} (h : Reachable db) : invs db := by
  induction h with
  | init =>
    refine ⟨?_, ?_, ?_⟩ <;> rintro x hx <;> simp [initDB] at hx
  | step s _ ih => exact invs_step _ s ih

end DevCollab

namespace DevCollab

/-- C5: once a call is `ended`, every `PATCH` invocation with action `end` or
`leave`, by any caller, returns 410 Gone and returns the store state
unchanged: `status`, `ended_at` and every participant row's `left_at`
(indeed the whole state) are untouched. -/
theorem ended_call_terminal (db : DB) (caller : ProfileId) (id : CallId) (action : String)
    (now : Time) (c : Call) (hfind : findCall db id = some c)
    (hended : c.status = CallStatus.ended)
    (haction : action = "end" ∨ action = "leave") :
    updateParticipation db caller id action now =
      (.err 410 "This call has already ended", db) := by
  unfold updateParticipation
  rw [if_neg (not_not_intro haction), hfind]
  dsimp only
  rw [if_pos hended]

end DevCollab

namespace DevCollab

theorem hasLinkedAccess_eq_false {db : DB} {c : Call} {u : ProfileId}
    (hnochat : ∀ ch, c.chat_id = some ch → (ch, u) ∉ db.chat_participants)
    (hnoevent : ∀ ev, c.calendar_event_id = some ev → (ev, u) ∉ db.event_participants) :
    hasLinkedAccess db c u = false := by
  apply eq_false_of_ne_true
  rw [hasLinkedAccess_eq_true]
  rintro (⟨ch, h1, h2⟩ | ⟨ev, h1, h2⟩)
  · exact hnochat ch h1 h2
  · exact hnoevent ev h1 h2

theorem getCallForJoin_unrelated_404 (db : DB) (caller : ProfileId) (id : CallId)
    (now : Time) (env : GetEnv) (c : Call)
    (hfind : findCall db id = some c)
    (hstarter : c.started_by ≠ caller)
    (hnorow : ∀ p ∈ db.call_participants, p.call_id = id → p.user_id ≠ caller)
    (hnochat : ∀ ch, c.chat_id = some ch → (ch, caller) ∉ db.chat_participants)
    (hnoevent : ∀ ev, c.calendar_event_id = some ev → (ev, caller) ∉ db.event_participants) :
    getCallForJoin db caller id now env = (.err 404 "Call not found", db) := by
  unfold getCallForJoin
  rw [hfind]
  dsimp only
  rw [if_pos]
  rw [decide_eq_false hstarter, isParticipantOf_eq_false.2 hnorow,
    hasLinkedAccess_eq_false hnochat hnoevent]
  rfl

/-- C4: an authenticated caller with no starter / participant / linked-chat /
linked-event relationship to an existing call receives from the GET handler
exactly the response — status 404, body `Call not found`, state untouched —
that any caller receives for a call id that does not exist. -/
theorem unauthorized_get_indistinguishable (db : DB) (caller : ProfileId)
    (id idGhost : CallId) (now now2 : Time) (env env2 : GetEnv) (c : Call)
    (hfind : findCall db id = some c)
    (hstarter : c.started_by ≠ caller)
    (hnorow : ∀ p ∈ db.call_participants, p.call_id = id → p.user_id ≠ caller)
    (hnochat : ∀ ch, c.chat_id = some ch → (ch, caller) ∉ db.chat_participants)
    (hnoevent : ∀ ev, c.calendar_event_id = some ev → (ev, caller) ∉ db.event_participants)
    (hghost : findCall db idGhost = none) :
    getCallForJoin db caller id now env = (.err 404 "Call not found", db) ∧
    getCallForJoin db caller idGhost now2 env2 = (.err 404 "Call not found", db) := by
  refine ⟨getCallForJoin_unrelated_404 db caller id now env c hfind hstarter hnorow
    hnochat hnoevent, ?_⟩
  unfold getCallForJoin
  rw [hghost]

end DevCollab

namespace DevCollab

/-- C10: the `leave` action performs no authorization check: a caller with no
starter / participant / chat / event relationship to an active call still
receives a success response (`left`, or auto-ended), while the GET handler
answers the very same caller with the 404 used for nonexistent calls — so
call existence is distinguishable through the leave path. -/
theorem leave_no_authorization_check (db : DB) (caller : ProfileId) (id : CallId)
    (now now2 : Time) (env : GetEnv) (c : Call)
    (hfind : findCall db id = some c)
    (hactive : c.status = CallStatus.active)
    (hstarter : c.started_by ≠ caller)
    (hnorow : ∀ p ∈ db.call_participants, p.call_id = id → p.user_id ≠ caller)
    (hnochat : ∀ ch, c.chat_id = some ch → (ch, caller) ∉ db.chat_participants)
    (hnoevent : ∀ ev, c.calendar_event_id = some ev → (ev, caller) ∉ db.event_participants) :
    ((updateParticipation db caller id "leave" now).1 = .ok "left" false ∨
     (updateParticipation db caller id "leave" now).1 = .ok "ended" true) ∧
    getCallForJoin db caller id now2 env = (.err 404 "Call not found", db) := by
  refine ⟨?_, getCallForJoin_unrelated_404 db caller id now2 env c hfind hstarter hnorow
    hnochat hnoevent⟩
  unfold updateParticipation
  rw [if_neg (not_not_intro (Or.inr rfl)), hfind]
  dsimp only
  rw [if_neg (by simp [hactive]), if_neg (by decide)]
  split
  · exact Or.inr rfl
  · exact Or.inl rfl

end DevCollab

namespace DevCollab

/-- Reduction of the `leave` branch on an active call: stamp the caller's
rows, then either auto-end (empty active re-check) or report `left`. -/
theorem leave_reduce (db : DB) (caller : ProfileId) (id : CallId) (now : Time)
    (c : Call) (hfind : findCall db id = some c)
    (hactive : c.status = CallStatus.active) :
    updateParticipation db caller id "leave" now =
      if ((db.call_participants.map (setLeft id caller now)).filter
          (fun p => decide (p.call_id = id ∧ p.left_at = none))).isEmpty then
        (.ok "ended" true,
         attemptRoomDelete
           { db with calls := db.calls.map (endCalls id now),
                     call_participants := db.call_participants.map (setLeft id caller now) }
           c.daily_room_name)
      else
        (.ok "left" false,
         { db with call_participants := db.call_participants.map (setLeft id caller now) }) := by
  unfold updateParticipation
  rw [if_neg (not_not_intro (Or.inr rfl)), hfind]
  dsimp only
  rw [if_neg (by simp [hactive]), if_neg (by decide)]

theorem setLeft_mem_left_at (parts : List CallParticipant) (id : CallId) (u : ProfileId)
    (now : Time) :
    ∀ p ∈ parts.map (setLeft id u now), p.call_id = id → p.user_id = u →
      p.left_at = some now := by
  rintro p hp h1 h2
  obtain ⟨q, hq, rfl⟩ := List.mem_map.1 hp
  by_cases hm : q.call_id = id ∧ q.user_id = u
  · simp [setLeft, hm]
  · rw [setLeft, if_neg hm] at h1 h2 ⊢
    exact absurd ⟨h1, h2⟩ hm

theorem leftFilter_isEmpty_iff (parts : List CallParticipant) (id : CallId) :
    ((parts.filter (fun p => decide (p.call_id = id ∧ p.left_at = none))).isEmpty = true) ↔
      ∀ p ∈ parts, p.call_id = id → p.left_at ≠ none := by
  rw [List.isEmpty_iff, List.filter_eq_nil_iff]
  simp

/-- C2: `leave` on an active call stamps the caller's own participant rows
with `left_at = now` and re-checks the remaining rows: when some row of the
call is still active the response is a plain `left` and the call rows are
untouched, and when no row of the call remains active the response reports
auto-ending (`status: ended, autoEnded: true`), the call row becomes `ended`
with `ended_at = now`, and deletion of the call's room is attempted. -/
theorem leave_on_active_call (db : DB) (caller : ProfileId) (id : CallId) (now : Time)
    (c : Call) (hfind : findCall db id = some c)
    (hactive : c.status = CallStatus.active) :
    (∀ p ∈ (updateParticipation db caller id "leave" now).2.call_participants,
        p.call_id = id → p.user_id = caller → p.left_at = some now) ∧
    ((∃ p ∈ (updateParticipation db caller id "leave" now).2.call_participants,
        p.call_id = id ∧ p.left_at = none) →
      (updateParticipation db caller id "leave" now).1 = .ok "left" false ∧
      (updateParticipation db caller id "leave" now).2.calls = db.calls) ∧
    ((∀ p ∈ (updateParticipation db caller id "leave" now).2.call_participants,
        p.call_id = id → p.left_at ≠ none) →
      (updateParticipation db caller id "leave" now).1 = .ok "ended" true ∧
      findCall (updateParticipation db caller id "leave" now).2 id =
        some { c with status := CallStatus.ended, ended_at := some now } ∧
      c.daily_room_name ∈
        (updateParticipation db caller id "leave" now).2.room_deletion_attempts) := by
  rw [leave_reduce db caller id now c hfind hactive]
  split
  next hemp =>
    refine ⟨setLeft_mem_left_at db.call_participants id caller now, ?_, ?_⟩
    · rintro ⟨p, hp, hp1, hp2⟩
      exact absurd hp2 ((leftFilter_isEmpty_iff _ id).1 hemp p hp hp1)
    · intro _
      refine ⟨rfl, ?_, ?_⟩
      · have hf : db.calls.find? (fun x => decide (x.id = id)) = some c := hfind
        show (db.calls.map (endCalls id now)).find? (fun x => decide (x.id = id)) = _
        rw [find?_map_of_id db.calls (endCalls id now) (endCalls_id id now) id, hf]
        have hcid : c.id = id := (findCall_mem hfind).2
        simp [endCalls, hcid]
      · simp [attemptRoomDelete]
  next hemp =>
    refine ⟨setLeft_mem_left_at db.call_participants id caller now, ?_, ?_⟩
    · intro _
      exact ⟨rfl, rfl⟩
    · intro hall
      exact absurd ((leftFilter_isEmpty_iff _ id).2 hall) hemp

end DevCollab

namespace DevCollab

/-- Reduction of the `end` branch on an active call for the starter. -/
theorem end_reduce (db : DB) (caller : ProfileId) (id : CallId) (now : Time)
    (c : Call) (hfind : findCall db id = some c)
    (hactive : c.status = CallStatus.active) (hstarter : c.started_by = caller) :
    updateParticipation db caller id "end" now =
      (.ok "ended" false,
       attemptRoomDelete
         { db with calls := db.calls.map (endCalls id now),
                   call_participants := db.call_participants.map (endLeft id now) }
         c.daily_room_name) := by
  unfold updateParticipation
  rw [if_neg (not_not_intro (Or.inl rfl)), hfind]
  dsimp only
  rw [if_neg (by simp [hactive]), if_pos rfl, if_neg (not_not_intro hstarter)]

/-- C7: on an active call, `end` by anyone but the starter is rejected with
403 Forbidden and the state is returned unchanged; `end` by the starter
returns success, marks the call `ended` with `ended_at = now`, marks every
currently active participant row left (`left_at = now`), carries every other
row over unchanged, and attempts deletion of the call's room. -/
theorem end_starter_only (db : DB) (caller : ProfileId) (id : CallId) (now : Time)
    (c : Call) (hfind : findCall db id = some c)
    (hactive : c.status = CallStatus.active) :
    (c.started_by ≠ caller →
      updateParticipation db caller id "end" now =
        (.err 403 "Only the call starter can end the call", db)) ∧
    (c.started_by = caller →
      (updateParticipation db caller id "end" now).1 = .ok "ended" false ∧
      findCall (updateParticipation db caller id "end" now).2 id =
        some { c with status := CallStatus.ended, ended_at := some now } ∧
      (∀ p ∈ (updateParticipation db caller id "end" now).2.call_participants,
        p.call_id = id → p.left_at ≠ none) ∧
      (∀ p ∈ db.call_participants, p.call_id = id → p.left_at = none →
        { p with left_at := some now } ∈
          (updateParticipation db caller id "end" now).2.call_participants) ∧
      (∀ p ∈ db.call_participants, ¬(p.call_id = id ∧ p.left_at = none) →
        p ∈ (updateParticipation db caller id "end" now).2.call_participants) ∧
      c.daily_room_name ∈
        (updateParticipation db caller id "end" now).2.room_deletion_attempts) := by
  constructor
  · intro hne
    unfold updateParticipation
    rw [if_neg (not_not_intro (Or.inl rfl)), hfind]
    dsimp only
    rw [if_neg (by simp [hactive]), if_pos rfl, if_pos hne]
  · intro hstarter
    rw [end_reduce db caller id now c hfind hactive hstarter]
    refine ⟨rfl, ?_, ?_, ?_, ?_, ?_⟩
    · have hf : db.calls.find? (fun x => decide (x.id = id)) = some c := hfind
      show (db.calls.map (endCalls id now)).find? (fun x => decide (x.id = id)) = _
      rw [find?_map_of_id db.calls (endCalls id now) (endCalls_id id now) id, hf]
      have hcid : c.id = id := (findCall_mem hfind).2
      simp [endCalls, hcid]
    · rintro p hp h1
      obtain ⟨q, hq, rfl⟩ := List.mem_map.1 hp
      by_cases hm : q.call_id = id ∧ q.left_at = none
      · simp [endLeft, hm]
      · rw [endLeft, if_neg hm] at h1 ⊢
        intro h2
        exact hm ⟨h1, h2⟩
    · rintro p hp h1 h2
      have : endLeft id now p = { p with left_at := some now } := by
        rw [endLeft, if_pos ⟨h1, h2⟩]
      exact this ▸ List.mem_map_of_mem (endLeft id now) hp
    · rintro p hp hm
      have : endLeft id now p = p := by rw [endLeft, if_neg hm]
      exact this ▸ List.mem_map_of_mem (endLeft id now) hp
    · simp [attemptRoomDelete]

end DevCollab

namespace DevCollab

theorem setLeft_idem (id : CallId) (u : ProfileId) (now : Time) (p : CallParticipant) :
    setLeft id u now (setLeft id u now p) = setLeft id u now p := by
  unfold setLeft
  by_cases hm : p.call_id = id ∧ p.user_id = u
  · rw [if_pos hm]
    simp [hm]
  · rw [if_neg hm, if_neg hm]

theorem leave_parts (db : DB) (caller : ProfileId) (id : CallId) (now : Time)
    (c : Call) (hfind : findCall db id = some c) (hactive : c.status = CallStatus.active) :
    (updateParticipation db caller id "leave" now).2.call_participants =
      db.call_participants.map (setLeft id caller now) := by
  rw [leave_reduce db caller id now c hfind hactive]
  split <;> rfl

theorem leftFilter_isEmpty_false_of_mem (parts : List CallParticipant) (id : CallId)
    (u : ProfileId) (now : Time) (p : CallParticipant)
    (hp : p ∈ parts) (h1 : p.call_id = id) (h2 : p.left_at = none) (h3 : p.user_id ≠ u) :
    ((parts.map (setLeft id u now)).filter
      (fun q => decide (q.call_id = id ∧ q.left_at = none))).isEmpty = false := by
  apply eq_false_of_ne_true
  intro htrue
  have hmem := (leftFilter_isEmpty_iff _ id).1 htrue (setLeft id u now p)
    (List.mem_map_of_mem _ hp)
  rw [setLeft, if_neg (by rintro ⟨-, h4⟩; exact h3 h4)] at hmem
  exact hmem h1 h2

/-- A row that is still active after a `leave` stamp cannot be the leaver's. -/
theorem active_after_setLeft_ne (parts : List CallParticipant) (id : CallId)
    (u : ProfileId) (now : Time) (p : CallParticipant)
    (hp : p ∈ parts.map (setLeft id u now)) (h1 : p.call_id = id)
    (h2 : p.left_at = none) : p.user_id ≠ u := by
  intro heq
  obtain ⟨q, hq, rfl⟩ := List.mem_map.1 hp
  have hm : q.call_id = id ∧ q.user_id = u := by
    constructor
    · rw [← setLeft_call_id id u now q]; exact h1
    · rw [← setLeft_user_id id u now q]; exact heq
  rw [setLeft, if_pos hm] at h2
  simp at h2

/-- C3 (amended): a second `leave` in succession for the same (call, profile)
pair, while the call is still active after the first, again returns the plain
`left` success (no error) and leaves the call rows and every other
participant's row unchanged, but it re-runs the unfiltered row update: the
caller's already-set `left_at` is overwritten with the second invocation's
timestamp.  With an unchanged clock the second invocation is a full no-op. -/
theorem leave_twice_amended (db : DB) (caller : ProfileId) (id : CallId) (t1 t2 : Time)
    (c : Call) (hfind : findCall db id = some c) (hactive : c.status = CallStatus.active)
    (hremain : ∃ p ∈ (updateParticipation db caller id "leave" t1).2.call_participants,
        p.call_id = id ∧ p.left_at = none) :
    (updateParticipation (updateParticipation db caller id "leave" t1).2
        caller id "leave" t2).1 = .ok "left" false ∧
    (updateParticipation (updateParticipation db caller id "leave" t1).2
        caller id "leave" t2).2.calls =
      (updateParticipation db caller id "leave" t1).2.calls ∧
    (∀ p ∈ (updateParticipation (updateParticipation db caller id "leave" t1).2
        caller id "leave" t2).2.call_participants,
      p.user_id ≠ caller →
        p ∈ (updateParticipation db caller id "leave" t1).2.call_participants) ∧
    (t2 = t1 →
      (updateParticipation (updateParticipation db caller id "leave" t1).2
        caller id "leave" t2).2 = (updateParticipation db caller id "leave" t1).2) := by
  rw [leave_parts db caller id t1 c hfind hactive] at hremain
  obtain ⟨p, hp, hp1, hp2⟩ := hremain
  have hpu : p.user_id ≠ caller :=
    active_after_setLeft_ne db.call_participants id caller t1 p hp hp1 hp2
  have hempty1 : ((db.call_participants.map (setLeft id caller t1)).filter
      (fun q => decide (q.call_id = id ∧ q.left_at = none))).isEmpty = false := by
    apply eq_false_of_ne_true
    intro htrue
    exact ((leftFilter_isEmpty_iff _ id).1 htrue p hp hp1) hp2
  have hred1 : updateParticipation db caller id "leave" t1 =
      (.ok "left" false,
       { db with call_participants := db.call_participants.map (setLeft id caller t1) }) := by
    rw [leave_reduce db caller id t1 c hfind hactive]
    rw [if_neg (by rw [hempty1]; exact Bool.false_ne_true)]
  rw [hred1]
  set db1 : DB :=
    { db with call_participants := db.call_participants.map (setLeft id caller t1) } with hdb1
  have hfind1 : findCall db1 id = some c := hfind
  have hempty2 : ((db1.call_participants.map (setLeft id caller t2)).filter
      (fun q => decide (q.call_id = id ∧ q.left_at = none))).isEmpty = false :=
    leftFilter_isEmpty_false_of_mem db1.call_participants id caller t2 p hp hp1 hp2 hpu
  have hred2 : updateParticipation db1 caller id "leave" t2 =
      (.ok "left" false,
       { db1 with call_participants := db1.call_participants.map (setLeft id caller t2) }) := by
    rw [leave_reduce db1 caller id t2 c hfind1 hactive]
    rw [if_neg (by rw [hempty2]; exact Bool.false_ne_true)]
  rw [hred2]
  refine ⟨rfl, rfl, ?_, ?_⟩
  · rintro q hq hqu
    obtain ⟨q0, hq0, rfl⟩ := List.mem_map.1 hq
    have : setLeft id caller t2 q0 = q0 := by
      rw [setLeft, if_neg]
      rintro ⟨-, h4⟩
      rw [setLeft_user_id] at hqu
      exact hqu h4
    rw [this]
    exact hq0
  · rintro rfl
    show ({ db1 with call_participants := db1.call_participants.map (setLeft id caller t2) } : DB) = db1
    rw [hdb1]
    have hcomp : setLeft id caller t2 ∘ setLeft id caller t2 = setLeft id caller t2 :=
      funext (setLeft_idem id caller t2)
    dsimp only
    rw [List.map_map, hcomp]

end DevCollab

namespace DevCollab


/-- C3 counterexample: on a two-participant active call, participant `b`
leaves at time 1 and again at time 2.  The second invocation succeeds with
the same plain `left` response, but it is not a no-op: it mutates the
already-set `left_at` of `b`'s row from `some 1` to `some 2`, so the claim
that the second invocation mutates nothing fails on the code. -/
theorem leave_twice_counterexample :
    (updateParticipation (updateParticipation dbLeaveTwice "b" "c1" "leave" 1).2
        "b" "c1" "leave" 2).1 = PatchResp.ok "left" false ∧
    (updateParticipation (updateParticipation dbLeaveTwice "b" "c1" "leave" 1).2
        "b" "c1" "leave" 2).2 ≠
      (updateParticipation dbLeaveTwice "b" "c1" "leave" 1).2 ∧
    (updateParticipation (updateParticipation dbLeaveTwice "b" "c1" "leave" 1).2
        "b" "c1" "leave" 2).2.call_participants = [⟨"c1", "a", 0, none⟩, ⟨"c1", "b", 0, some 2⟩] ∧
    (updateParticipation dbLeaveTwice "b" "c1" "leave" 1).2.call_participants =
      [⟨"c1", "a", 0, none⟩, ⟨"c1", "b", 0, some 1⟩] := by
  decide

end DevCollab

namespace DevCollab

/-- C6: a caller authorized for an active call only through the linked chat
or linked calendar event (no participant row) gets a successful GET response,
and as a side effect exactly one participant row for (call, caller) with
`joined_at = now` and a null `left_at` is appended; because the upsert is
keyed on the `(call_id, user_id)` unique constraint, any repeated join leaves
the participant table unchanged. -/
theorem linked_access_self_healing (db : DB) (caller : ProfileId) (id : CallId)
    (now : Time) (env : GetEnv) (c : Call)
    (hfind : findCall db id = some c) (hactive : c.status = CallStatus.active)
    (hnorow : ∀ p ∈ db.call_participants, p.call_id = id → p.user_id ≠ caller)
    (hlink : (∃ ch, c.chat_id = some ch ∧ (ch, caller) ∈ db.chat_participants) ∨
             (∃ ev, c.calendar_event_id = some ev ∧ (ev, caller) ∈ db.event_participants))
    (htok : env.tokenOk = true) :
    getCallForJoin db caller id now env =
      (GetResp.ok c.id env.token c.daily_room_url,
       { db with call_participants := db.call_participants ++
           [{ call_id := id, user_id := caller, joined_at := now, left_at := none }] }) ∧
    ∀ now2 env2,
      (getCallForJoin
        { db with call_participants := db.call_participants ++
            [{ call_id := id, user_id := caller, joined_at := now, left_at := none }] }
        caller id now2 env2).2 =
      { db with call_participants := db.call_participants ++
          [{ call_id := id, user_id := caller, joined_at := now, left_at := none }] } := by
  have hl : hasLinkedAccess db c caller = true := hasLinkedAccess_eq_true.2 hlink
  have hnp : isParticipantOf db id caller = false := isParticipantOf_eq_false.2 hnorow
  constructor
  · unfold getCallForJoin
    rw [hfind]
    dsimp only
    rw [if_neg (by simp [hl]), if_neg (by simp [hactive]), if_neg (by simp [htok]),
      if_neg (by simp [hnp])]
    unfold upsertParticipant
    rw [if_neg (by simp [hnp])]
  · intro now2 env2
    have hfind2 : findCall
        { db with call_participants := db.call_participants ++
            [{ call_id := id, user_id := caller, joined_at := now, left_at := none }] }
        id = some c := hfind
    have hp2 : isParticipantOf
        { db with call_participants := db.call_participants ++
            [{ call_id := id, user_id := caller, joined_at := now, left_at := none }] }
        id caller = true := by
      unfold isParticipantOf
      rw [List.any_eq_true]
      exact ⟨{ call_id := id, user_id := caller, joined_at := now, left_at := none },
        List.mem_append_right _ (by simp), by simp⟩
    unfold getCallForJoin
    rw [hfind2]
    dsimp only
    rw [if_neg (by simp [hp2]), if_neg (by simp [hactive])]
    split
    · rfl
    · simp [hp2]

end DevCollab

namespace DevCollab

theorem jsSet_go_mem (l : List String) (acc : List String) (x : String) :
    x ∈ l.foldl jsSetFold acc ↔ x ∈ acc ∨ x ∈ l := by
  induction l generalizing acc with
  | nil => simp
  | cons a t ih =>
    simp only [List.foldl_cons, ih]
    unfold jsSetFold
    by_cases h : a ∈ acc
    · rw [if_pos h]
      simp only [List.mem_cons]
      constructor
      · rintro (hx | hx)
        · exact Or.inl hx
        · exact Or.inr (Or.inr hx)
      · rintro (hx | rfl | hx)
        · exact Or.inl hx
        · exact Or.inl h
        · exact Or.inr hx
    · rw [if_neg h]
      simp only [List.mem_append, List.mem_singleton, List.mem_cons]
      tauto

theorem jsSet_go_nodup (l : List String) (acc : List String) (h : acc.Nodup) :
    (l.foldl jsSetFold acc).Nodup := by
  induction l generalizing acc with
  | nil => simpa
  | cons a t ih =>
    simp only [List.foldl_cons]
    apply ih
    unfold jsSetFold
    by_cases hmem : a ∈ acc
    · rwa [if_pos hmem]
    · rw [if_neg hmem]
      simp [List.nodup_append, h, hmem]

theorem jsSet_mem (l : List String) (x : String) : x ∈ jsSet l ↔ x ∈ l := by
  unfold jsSet
  rw [jsSet_go_mem]
  simp

theorem jsSet_nodup (l : List String) : (jsSet l).Nodup :=
  jsSet_go_nodup l [] List.nodup_nil

theorem validStrings_mem (l : List JVal) (u : String) :
    u ∈ validStrings l ↔ JVal.str u ∈ l := by
  unfold validStrings
  rw [List.mem_filterMap]
  constructor
  · rintro ⟨a, ha, hfa⟩
    cases a with
    | str s =>
      simp only [Option.some.injEq] at hfa
      subst hfa
      exact ha
    | other => simp at hfa
  · intro h
    exact ⟨JVal.str u, h, rfl⟩

end DevCollab

namespace DevCollab

/-- Reduction of a fully successful create: room allocated, call row
inserted, participant rows bulk-inserted. -/
theorem create_success_state (db : DB) (caller : ProfileId) (inp : CreateInput)
    (env : CreateEnv) (now : Time)
    (hroom : env.roomOk = true) (hins : env.insertCallOk = true)
    (hfresh : ∀ c ∈ db.calls, c.id ≠ env.newCallId)
    (hparts : env.insertParticipantsOk = true) :
    (createCall db caller inp env now).2 =
      { db with
        calls := db.calls ++
          [{ id := env.newCallId, daily_room_name := env.roomName,
             daily_room_url := env.roomUrl, title := normTitle inp.title,
             started_by := caller, calendar_event_id := orNull inp.calendarEventId,
             chat_id := orNull inp.chatId, status := CallStatus.active,
             ended_at := none }],
        call_participants := db.call_participants ++
          (jsSet (caller :: validStrings (inp.participantIds.getD []))).map
            (fun uid => { call_id := env.newCallId, user_id := uid,
                          joined_at := now, left_at := none }),
        allocated_rooms := db.allocated_rooms ++ [env.roomName] } := by
  unfold createCall
  dsimp only
  rw [if_neg (by simp [hroom])]
  rw [if_neg ?hc]
  case hc =>
    rintro (h | h)
    · rw [hins] at h
      cases h
    · rw [List.any_eq_true] at h
      obtain ⟨c, hc, hcd⟩ := h
      exact hfresh c hc (of_decide_eq_true hcd)
  rw [apply_ite Prod.snd]
  dsimp only
  rw [ite_self]
  rw [if_pos ?hp]
  case hp =>
    refine ⟨?_, hparts⟩
    rw [List.length_map]
    exact List.length_pos_of_mem ((jsSet_mem _ caller).2 (List.mem_cons_self _ _))

/-- C9: a fully successful create inserts, after the untouched pre-existing
rows, exactly one fresh participant row per member of the deduplicated union
of the caller and the string entries of the supplied participant list
(non-string entries discarded); each inserted row belongs to the new call and
is active, and the caller is always among the inserted user ids. -/
theorem create_participants_normalized (db : DB) (caller : ProfileId) (inp : CreateInput)
    (env : CreateEnv) (now : Time)
    (hroom : env.roomOk = true) (hins : env.insertCallOk = true)
    (hfresh : ∀ c ∈ db.calls, c.id ≠ env.newCallId)
    (hparts : env.insertParticipantsOk = true) :
    ((createCall db caller inp env now).2.call_participants.take
        db.call_participants.length = db.call_participants) ∧
    (((createCall db caller inp env now).2.call_participants.drop
        db.call_participants.length).map (fun p => p.user_id)).Nodup ∧
    (∀ u, u ∈ ((createCall db caller inp env now).2.call_participants.drop
        db.call_participants.length).map (fun p => p.user_id) ↔
      (u = caller ∨ JVal.str u ∈ inp.participantIds.getD [])) ∧
    (∀ p ∈ (createCall db caller inp env now).2.call_participants.drop
        db.call_participants.length,
      p.call_id = env.newCallId ∧ p.joined_at = now ∧ p.left_at = none) := by
  rw [create_success_state db caller inp env now hroom hins hfresh hparts]
  dsimp only
  rw [List.take_left, List.drop_left]
  have hmapmap : ((jsSet (caller :: validStrings (inp.participantIds.getD []))).map
      (fun uid => ({ call_id := env.newCallId, user_id := uid,
                     joined_at := now, left_at := none } : CallParticipant))).map
        (fun p => p.user_id) =
      jsSet (caller :: validStrings (inp.participantIds.getD [])) := by
    rw [List.map_map]
    exact List.map_id _
  refine ⟨rfl, ?_, ?_, ?_⟩
  · rw [hmapmap]
    exact jsSet_nodup _
  · intro u
    rw [hmapmap, jsSet_mem, List.mem_cons, validStrings_mem]
  · rintro p hp
    obtain ⟨uid, huid, rfl⟩ := List.mem_map.1 hp
    exact ⟨rfl, rfl, rfl⟩

end DevCollab

namespace DevCollab

/-- C8: when external room allocation fails, create aborts with a creation
error and the returned state is exactly the incoming state — in particular no
call row was written; and across every reachable state, every existing call
row's room name was previously handed out by the room provider (rooms are
allocated before call rows exist). -/
theorem room_allocation_failure_aborts :
    (∀ (db : DB) (caller : ProfileId) (inp : CreateInput) (env : CreateEnv) (now : Time),
      env.roomOk = false →
      createCall db caller inp env now = (.err 500 "Failed to create video room", db)) ∧
    (∀ db : DB, Reachable db → ∀ c ∈ db.calls, c.daily_room_name ∈ db.allocated_rooms) := by
  constructor
  · intro db caller inp env now h
    unfold createCall
    rw [if_pos h]
  · intro db h
    exact (reachable_invs h).2.2


/-- C1 counterexample: the stated invariant fails on a reachable state.  One
create request whose bulk participant insert fails (a failure branch the
handler logs and skips) yields a call with zero participant rows — so every
participant row of it vacuously has non-null `left_at` — whose status is
`active`, not `ended`. -/
theorem auto_end_claim_counterexample :
    ¬ (∀ db : DB, Reachable db → claimAutoEnd db) := by
  intro h
  have hr : Reachable (stepDB initDB (Step.create "a"
      { title := none, participantIds := some [], calendarEventId := none, chatId := none }
      { roomOk := true, roomName := "r1", roomUrl := "u1", newCallId := "c1",
        insertCallOk := true, insertParticipantsOk := false, tokenOk := true, token := "t" }
      0)) :=
    Reachable.step _ Reachable.init
  exact absurd (h _ hr) (by unfold claimAutoEnd; decide)

/-- C1 (amended): in every reachable state, a call that has at least one
participant row, all of whose participant rows have non-null `left_at`, has
status `ended`; the zero-row case is excluded, because a create whose bulk
participant insert fails leaves an active call with no rows. -/
theorem auto_end_invariant_enrolled (db : DB) (hreach : Reachable db) (c : Call)
    (hc : c ∈ db.calls)
    (hrow : ∃ p ∈ db.call_participants, p.call_id = c.id)
    (hall : ∀ p ∈ db.call_participants, p.call_id = c.id → p.left_at ≠ none) :
    c.status = CallStatus.ended := by
  cases hst : c.status with
  | active =>
    obtain ⟨p, hp, hp1, hp2⟩ := (reachable_invs hreach).1 c hc hst hrow
    exact absurd hp2 (hall p hp hp1)
  | ended => rfl

end DevCollab

namespace DevCollab

theorem ended_call_terminal_witness :
    updateParticipation dbEnded "a" "c1" "end" 9 =
      (PatchResp.err 410 "This call has already ended", dbEnded) :=
  ended_call_terminal dbEnded "a" "c1" "end" 9 callEnded (by decide) (by decide)
    (Or.inl rfl)

theorem unauthorized_get_indistinguishable_witness :
    getCallForJoin dbTwo "z" "c1" 4 ⟨true, "tk"⟩ =
      (GetResp.err 404 "Call not found", dbTwo) ∧
    getCallForJoin dbTwo "z" "nope" 4 ⟨true, "tk"⟩ =
      (GetResp.err 404 "Call not found", dbTwo) :=
  unauthorized_get_indistinguishable dbTwo "z" "c1" "nope" 4 4 ⟨true, "tk"⟩ ⟨true, "tk"⟩
    callTwo (by decide) (by decide) (by decide)
    (fun ch h => Option.noConfusion h) (fun ev h => Option.noConfusion h) (by decide)

theorem leave_no_authorization_check_witness :
    ((updateParticipation dbTwo "z" "c1" "leave" 2).1 = PatchResp.ok "left" false ∨
     (updateParticipation dbTwo "z" "c1" "leave" 2).1 = PatchResp.ok "ended" true) ∧
    getCallForJoin dbTwo "z" "c1" 2 ⟨true, "tk"⟩ =
      (GetResp.err 404 "Call not found", dbTwo) :=
  leave_no_authorization_check dbTwo "z" "c1" 2 2 ⟨true, "tk"⟩ callTwo
    (by decide) (by decide) (by decide) (by decide)
    (fun ch h => Option.noConfusion h) (fun ev h => Option.noConfusion h)

theorem leave_on_active_call_witness :
    (updateParticipation dbTwo "b" "c1" "leave" 5).1 = PatchResp.ok "left" false ∧
    (updateParticipation dbTwo "b" "c1" "leave" 5).2.calls = dbTwo.calls :=
  (leave_on_active_call dbTwo "b" "c1" 5 callTwo (by decide) (by decide)).2.1 (by decide)

theorem leave_twice_amended_witness :
    (updateParticipation (updateParticipation dbTwo "b" "c1" "leave" 3).2
      "b" "c1" "leave" 3).1 = PatchResp.ok "left" false ∧
    (updateParticipation (updateParticipation dbTwo "b" "c1" "leave" 3).2
      "b" "c1" "leave" 3).2 = (updateParticipation dbTwo "b" "c1" "leave" 3).2 :=
  ⟨(leave_twice_amended dbTwo "b" "c1" 3 3 callTwo (by decide) (by decide) (by decide)).1,
   (leave_twice_amended dbTwo "b" "c1" 3 3 callTwo (by decide) (by decide) (by decide)).2.2.2
     rfl⟩

theorem end_starter_only_witness :
    updateParticipation dbTwo "b" "c1" "end" 6 =
      (PatchResp.err 403 "Only the call starter can end the call", dbTwo) ∧
    findCall (updateParticipation dbTwo "a" "c1" "end" 6).2 "c1" =
      some { callTwo with status := CallStatus.ended, ended_at := some 6 } ∧
    "r1" ∈ (updateParticipation dbTwo "a" "c1" "end" 6).2.room_deletion_attempts :=
  ⟨(end_starter_only dbTwo "b" "c1" 6 callTwo (by decide) (by decide)).1 (by decide),
   ((end_starter_only dbTwo "a" "c1" 6 callTwo (by decide) (by decide)).2 rfl).2.1,
   ((end_starter_only dbTwo "a" "c1" 6 callTwo (by decide) (by decide)).2 rfl).2.2.2.2.2⟩

theorem linked_access_self_healing_witness :
    getCallForJoin dbChat "w" "c1" 7 ⟨true, "tk"⟩ =
      (GetResp.ok "c1" "tk" "u1",
       { dbChat with call_participants := dbChat.call_participants ++
           [{ call_id := "c1", user_id := "w", joined_at := 7, left_at := none }] }) ∧
    (getCallForJoin
      { dbChat with call_participants := dbChat.call_participants ++
          [{ call_id := "c1", user_id := "w", joined_at := 7, left_at := none }] }
      "w" "c1" 8 ⟨true, "tk2"⟩).2 =
      { dbChat with call_participants := dbChat.call_participants ++
          [{ call_id := "c1", user_id := "w", joined_at := 7, left_at := none }] } :=
  ⟨(linked_access_self_healing dbChat "w" "c1" 7 ⟨true, "tk"⟩ callChat (by decide)
      (by decide) (by decide) (Or.inl ⟨"ch", rfl, by decide⟩) rfl).1,
   (linked_access_self_healing dbChat "w" "c1" 7 ⟨true, "tk"⟩ callChat (by decide)
      (by decide) (by decide) (Or.inl ⟨"ch", rfl, by decide⟩) rfl).2 8 ⟨true, "tk2"⟩⟩

theorem room_allocation_failure_aborts_witness :
    createCall initDB "a"
      { title := none, participantIds := none, calendarEventId := none, chatId := none }
      { roomOk := false, roomName := "r1", roomUrl := "u1", newCallId := "c1",
        insertCallOk := true, insertParticipantsOk := true, tokenOk := true, token := "t" }
      0 = (CreateResp.err 500 "Failed to create video room", initDB) ∧
    "r1" ∈ (stepDB initDB (Step.create "a"
      { title := none, participantIds := none, calendarEventId := none, chatId := none }
      { roomOk := true, roomName := "r1", roomUrl := "u1", newCallId := "c1",
        insertCallOk := true, insertParticipantsOk := true, tokenOk := true, token := "t" }
      0)).allocated_rooms :=
  ⟨room_allocation_failure_aborts.1 initDB "a"
    { title := none, participantIds := none, calendarEventId := none, chatId := none }
    { roomOk := false, roomName := "r1", roomUrl := "u1", newCallId := "c1",
      insertCallOk := true, insertParticipantsOk := true, tokenOk := true, token := "t" }
    0 rfl,
   room_allocation_failure_aborts.2 _
    (Reachable.step (Step.create "a"
      { title := none, participantIds := none, calendarEventId := none, chatId := none }
      { roomOk := true, roomName := "r1", roomUrl := "u1", newCallId := "c1",
        insertCallOk := true, insertParticipantsOk := true, tokenOk := true, token := "t" }
      0) Reachable.init)
    { id := "c1", daily_room_name := "r1", daily_room_url := "u1", title := none,
      started_by := "a", calendar_event_id := none, chat_id := none,
      status := CallStatus.active, ended_at := none }
    (by decide)⟩

theorem create_participants_normalized_witness :
    ((createCall initDB "u1"
        { title := none, participantIds := some [JVal.str "u2", JVal.str "u3"],
          calendarEventId := none, chatId := none }
        { roomOk := true, roomName := "r1", roomUrl := "u1", newCallId := "c1",
          insertCallOk := true, insertParticipantsOk := true, tokenOk := true, token := "t" }
        0).2.call_participants.take initDB.call_participants.length =
      initDB.call_participants) ∧
    (((createCall initDB "u1"
        { title := none, participantIds := some [JVal.str "u2", JVal.str "u3"],
          calendarEventId := none, chatId := none }
        { roomOk := true, roomName := "r1", roomUrl := "u1", newCallId := "c1",
          insertCallOk := true, insertParticipantsOk := true, tokenOk := true, token := "t" }
        0).2.call_participants.drop initDB.call_participants.length).map
          (fun p => p.user_id)).Nodup ∧
    ("u1" ∈ ((createCall initDB "u1"
        { title := none, participantIds := some [JVal.str "u2", JVal.str "u3"],
          calendarEventId := none, chatId := none }
        { roomOk := true, roomName := "r1", roomUrl := "u1", newCallId := "c1",
          insertCallOk := true, insertParticipantsOk := true, tokenOk := true, token := "t" }
        0).2.call_participants.drop initDB.call_participants.length).map
          (fun p => p.user_id) ↔
      ("u1" = "u1" ∨ JVal.str "u1" ∈ [JVal.str "u2", JVal.str "u3"])) ∧
    (createCall initDB "u1"
        { title := none, participantIds := some [JVal.str "u2", JVal.str "u3"],
          calendarEventId := none, chatId := none }
        { roomOk := true, roomName := "r1", roomUrl := "u1", newCallId := "c1",
          insertCallOk := true, insertParticipantsOk := true, tokenOk := true, token := "t" }
        0).2.call_participants.length = 3 :=
  ⟨(create_participants_normalized initDB "u1"
      { title := none, participantIds := some [JVal.str "u2", JVal.str "u3"],
        calendarEventId := none, chatId := none }
      { roomOk := true, roomName := "r1", roomUrl := "u1", newCallId := "c1",
        insertCallOk := true, insertParticipantsOk := true, tokenOk := true, token := "t" }
      0 rfl rfl (by decide) rfl).1,
   (create_participants_normalized initDB "u1"
      { title := none, participantIds := some [JVal.str "u2", JVal.str "u3"],
        calendarEventId := none, chatId := none }
      { roomOk := true, roomName := "r1", roomUrl := "u1", newCallId := "c1",
        insertCallOk := true, insertParticipantsOk := true, tokenOk := true, token := "t" }
      0 rfl rfl (by decide) rfl).2.1,
   (create_participants_normalized initDB "u1"
      { title := none, participantIds := some [JVal.str "u2", JVal.str "u3"],
        calendarEventId := none, chatId := none }
      { roomOk := true, roomName := "r1", roomUrl := "u1", newCallId := "c1",
        insertCallOk := true, insertParticipantsOk := true, tokenOk := true, token := "t" }
      0 rfl rfl (by decide) rfl).2.2.1 "u1",
   by decide⟩

theorem auto_end_invariant_enrolled_witness :
    ({ id := "c1", daily_room_name := "r1", daily_room_url := "u1", title := none,
       started_by := "a", calendar_event_id := none, chat_id := none,
       status := CallStatus.ended, ended_at := some 1 } : Call).status =
      CallStatus.ended :=
  auto_end_invariant_enrolled
    (stepDB (stepDB initDB (Step.create "a"
      { title := none, participantIds := none, calendarEventId := none, chatId := none }
      { roomOk := true, roomName := "r1", roomUrl := "u1", newCallId := "c1",
        insertCallOk := true, insertParticipantsOk := true, tokenOk := true, token := "t" }
      0)) (Step.patch "a" "c1" "leave" 1))
    (Reachable.step (Step.patch "a" "c1" "leave" 1)
      (Reachable.step (Step.create "a"
        { title := none, participantIds := none, calendarEventId := none, chatId := none }
        { roomOk := true, roomName := "r1", roomUrl := "u1", newCallId := "c1",
          insertCallOk := true, insertParticipantsOk := true, tokenOk := true, token := "t" }
        0) Reachable.init))
    { id := "c1", daily_room_name := "r1", daily_room_url := "u1", title := none,
      started_by := "a", calendar_event_id := none, chat_id := none,
      status := CallStatus.ended, ended_at := some 1 }
    (by decide) (by decide) (by decide)

end DevCollab
